import Mathlib

/-!
Verification development for the GramSense ASR core
(src/ml/asr-engine/core/tokenizer.py and src/ml/asr-engine/core/whisper.py).

Shallow embedding conventions:
* Python dicts used as lookup tables become Lean functions into `Option`
  or literal association lists.
* Numpy 2-D arrays become `Mat`: explicit row/column counts with an entry
  function; the shapes are data taken from the source's allocations.
* External numeric kernels invoked by the source (`np.hanning`,
  `np.fft.rfft`, `log10`, `10 ** x`, `floor`) are fields of a `NumOps`
  parameter record: the control flow and the shape bookkeeping around them
  are embedded concretely from the source.
* Python exceptions become `Option`/`Except`: a raising external call is
  an `Option`-valued function, a raising method returns `Except AsrError`.
* Wall-clock timing (`time.perf_counter`) is not modelled; `durationMs`
  is fixed to 0.
-/

/-- Tokenizer state as loaded by `WhisperTokenizer._load_tokenizer`:
the vocabulary dict (token string to id), its inverse dict,
and the parsed merge pairs (loaded but unused by `encode`). -/
structure WhisperTokenizer where
  vocab : String → Option ℤ
  invVocab : ℤ → Option String
  merges : List (List String)

namespace WhisperTokenizer

/-- Class constant `EOT_TOKEN = 50257` (end of text). -/
def EOT_TOKEN : ℤ := 50257

/-- Class constant `SOT_TOKEN = 50258` (start of transcript). -/
def SOT_TOKEN : ℤ := 50258

/-- Class constant `TRANSLATE_TOKEN = 50358`. -/
def TRANSLATE_TOKEN : ℤ := 50358

/-- Class constant `TRANSCRIBE_TOKEN = 50359`. -/
def TRANSCRIBE_TOKEN : ℤ := 50359

/-- Class constant `NO_TIMESTAMPS_TOKEN = 50363`. -/
def NO_TIMESTAMPS_TOKEN : ℤ := 50363

/-- Class constant `TIMESTAMP_BEGIN = 50364`. -/
def TIMESTAMP_BEGIN : ℤ := 50364

/-- The `LANGUAGES` class dict of `tokenizer.py`, verbatim, in source order. -/
def LANGUAGES : List (String × ℤ) := [
  ("en", 50259), ("zh", 50260), ("de", 50261), ("es", 50262), ("ru", 50263),
  ("ko", 50264), ("fr", 50265), ("ja", 50266), ("pt", 50267), ("tr", 50268),
  ("pl", 50269), ("ca", 50270), ("nl", 50271), ("ar", 50272), ("sv", 50273),
  ("it", 50274), ("id", 50275), ("hi", 50276), ("fi", 50277), ("vi", 50278),
  ("he", 50279), ("uk", 50280), ("el", 50281), ("ms", 50282), ("cs", 50283),
  ("ro", 50284), ("da", 50285), ("hu", 50286), ("ta", 50287), ("no", 50288),
  ("th", 50289), ("ur", 50290), ("hr", 50291), ("bg", 50292), ("lt", 50293),
  ("la", 50294), ("mi", 50295), ("ml", 50296), ("cy", 50297), ("sk", 50298),
  ("te", 50299), ("fa", 50300), ("lv", 50301), ("bn", 50302), ("sr", 50303),
  ("az", 50304), ("sl", 50305), ("kn", 50306), ("et", 50307), ("mk", 50308),
  ("br", 50309), ("eu", 50310), ("is", 50311), ("hy", 50312), ("ne", 50313),
  ("mn", 50314), ("bs", 50315), ("kk", 50316), ("sq", 50317), ("sw", 50318),
  ("gl", 50319), ("mr", 50320), ("pa", 50321), ("si", 50322), ("km", 50323),
  ("sn", 50324), ("yo", 50325), ("so", 50326), ("af", 50327), ("oc", 50328),
  ("ka", 50329), ("be", 50330), ("tg", 50331), ("sd", 50332), ("gu", 50333),
  ("am", 50334), ("yi", 50335), ("lo", 50336), ("uz", 50337), ("fo", 50338),
  ("ht", 50339), ("ps", 50340), ("tk", 50341), ("nn", 50342), ("mt", 50343),
  ("sa", 50344), ("lb", 50345), ("my", 50346), ("bo", 50347), ("tl", 50348),
  ("mg", 50349), ("as", 50350), ("tt", 50351), ("haw", 50352), ("ln", 50353),
  ("ha", 50354), ("ba", 50355), ("jw", 50356), ("su", 50357)]

/-- `WhisperTokenizer.encode`: each character of the input is looked up
individually in the vocabulary (as a one-character string); a missing
character falls back to `self.vocab.get('<|endoftext|>', 0)`, i.e. the
id the vocabulary assigns to the end-of-text string, or `0` when that
string is itself absent. -/
def encode (t : WhisperTokenizer) (text : String) : List ℤ :=
  text.data.map (fun ch =>
    (t.vocab ch.toString).getD ((t.vocab "<|endoftext|>").getD 0))

/-- The token-collecting loop of `WhisperTokenizer.decode`: iterate over
the ids; with `skip` set, an id at least `SOT_TOKEN` is skipped
(`continue`) and an id equal to `EOT_TOKEN` breaks the loop; otherwise
the id is resolved through the inverse vocabulary
(`self.inv_vocab.get(token_id, '')`) and nonempty strings are kept. -/
def decodeCollect (inv : ℤ → Option String) (skip : Bool) : List ℤ → List String
  | [] => []
  | tokenId :: rest =>
    if skip ∧ SOT_TOKEN ≤ tokenId then decodeCollect inv skip rest
    else if skip ∧ tokenId = EOT_TOKEN then []
    else
      let tokenStr := (inv tokenId).getD ""
      if tokenStr ≠ "" then tokenStr :: decodeCollect inv skip rest
      else decodeCollect inv skip rest

/-- The string post-processing at the end of `WhisperTokenizer.decode`:
join the collected token strings, replace the GPT-2 space marker by a
space and the newline marker by a newline, then strip. -/
def postprocess (tokens : List String) : String :=
  (((String.join tokens).replace "Ġ" " ").replace "Ċ" "\n").trim

/-- `WhisperTokenizer.decode(token_ids, skip_special_tokens)`. -/
def decode (t : WhisperTokenizer) (tokenIds : List ℤ) (skipSpecialTokens : Bool) :
    String :=
  postprocess (decodeCollect t.invVocab skipSpecialTokens tokenIds)

/-- `WhisperTokenizer.get_language_token`:
`self.LANGUAGES.get(language, self.LANGUAGES['en'])`. The inner
`LANGUAGES['en']` lookup cannot fail ('en' is the first table entry);
its `getD 0` arm is unreachable. -/
def getLanguageToken (language : String) : ℤ :=
  match LANGUAGES.lookup language with
  | some v => v
  | none => (LANGUAGES.lookup "en").getD 0

/-- `WhisperTokenizer.build_decoder_input`: `[SOT, language token,
task token (translate or transcribe), optionally no-timestamps]`. -/
def buildDecoderInput (language task : String) (noTimestamps : Bool) : List ℤ :=
  let tokens := [SOT_TOKEN]
  let tokens := tokens ++ [getLanguageToken language]
  let tokens := tokens ++
    [if task = "translate" then TRANSLATE_TOKEN else TRANSCRIBE_TOKEN]
  if noTimestamps then tokens ++ [NO_TIMESTAMPS_TOKEN] else tokens

end WhisperTokenizer

/-- A 2-D numpy array: explicit shape plus an entry function.
Shapes are the data the source allocates (`np.zeros((r, c))` etc.). -/
structure Mat (α : Type) where
  rows : ℕ
  cols : ℕ
  entry : ℕ → ℕ → α

/-- Elementwise map over a matrix; shape preserved (numpy ufunc). -/
def Mat.map (f : α → β) (m : Mat α) : Mat β :=
  ⟨m.rows, m.cols, fun i j => f (m.entry i j)⟩

/-- The scalar operations the feature extractor delegates to
numpy/libm. The structural control flow around them is embedded
concretely; these kernels are opaque parameters. -/
structure NumOps (α : Type) where
  zero : α
  add : α → α → α
  sub : α → α → α
  mul : α → α → α
  div : α → α → α
  ofRat : ℚ → α
  ofInt : ℤ → α
  maxOp : α → α → α
  log10 : α → α
  pow10 : α → α
  floorToInt : α → ℤ
  hanning : ℕ → ℕ → α
  rfftRe : List α → ℕ → α
  rfftIm : List α → ℕ → α

/-- Matrix product `A @ B` (shapes agree at every use site). -/
def Mat.mul (ops : NumOps α) (A B : Mat α) : Mat α :=
  ⟨A.rows, B.cols, fun i j =>
    (List.range A.cols).foldl
      (fun acc k => ops.add acc (ops.mul (A.entry i k) (B.entry k j)))
      ops.zero⟩

/-- `m.max()`: maximum over all entries (the source applies it to a
nonempty 80 x n matrix, so folding from `entry 0 0` agrees with numpy). -/
def Mat.maxEntry (ops : NumOps α) (m : Mat α) : α :=
  (List.range m.rows).foldl
    (fun acc i =>
      (List.range m.cols).foldl (fun a j => ops.maxOp a (m.entry i j)) acc)
    (m.entry 0 0)

/-- The pad-or-truncate of `_compute_mel_spectrogram`: zero-pad on the
right to `target` samples when short, hard-truncate when long. -/
def padToTarget (z : α) (target : ℕ) (audio : List α) : List α :=
  if audio.length < target then
    audio ++ List.replicate (target - audio.length) z
  else audio.take target

/-- `np.linspace a b n` at index `i`: `a + i * (b - a) / (n - 1)`. -/
def linspaceAt (ops : NumOps α) (a b : α) (n i : ℕ) : α :=
  ops.add a (ops.div (ops.mul (ops.ofRat i) (ops.sub b a)) (ops.ofRat (n - 1)))

/-- `hz_to_mel` from `_create_mel_filterbank`:
`2595 * log10(1 + hz / 700)`. -/
def hzToMel (ops : NumOps α) (hz : α) : α :=
  ops.mul (ops.ofRat 2595) (ops.log10 (ops.add (ops.ofRat 1) (ops.div hz (ops.ofRat 700))))

/-- `mel_to_hz` from `_create_mel_filterbank`:
`700 * (10 ** (mel / 2595) - 1)`. -/
def melToHz (ops : NumOps α) (mel : α) : α :=
  ops.mul (ops.ofRat 700) (ops.sub (ops.pow10 (ops.div mel (ops.ofRat 2595))) (ops.ofRat 1))

/-- `WhisperASR._create_mel_filterbank`: triangular filters; the matrix
shape is `np.zeros((n_mels, n_fft // 2 + 1))`; bin `j` of filter `i`
ramps linearly from the filter's left edge to its center and back down
to its right edge (the Python `for j in range(...)` fills exactly the
bins the entry function's range conditions describe; `sample_rate` is
the constant 16000 set in `__init__`). -/
def createMelFilterbank (ops : NumOps α) (nFft nMels : ℕ) : Mat α :=
  let fmin := ops.ofRat 0
  let fmax := ops.div (ops.ofRat 16000) (ops.ofRat 2)
  let melMin := hzToMel ops fmin
  let melMax := hzToMel ops fmax
  let mels : ℕ → α := fun i => linspaceAt ops melMin melMax (nMels + 2) i
  let freqs : ℕ → α := fun i => melToHz ops (mels i)
  let bins : ℕ → ℤ := fun i =>
    ops.floorToInt (ops.div (ops.mul (ops.ofRat (nFft + 1)) (freqs i)) (ops.ofRat 16000))
  ⟨nMels, nFft / 2 + 1, fun i j =>
    let left := bins i
    let center := bins (i + 1)
    let right := bins (i + 2)
    if left ≤ (j : ℤ) ∧ (j : ℤ) < center then
      ops.div (ops.ofInt ((j : ℤ) - left)) (ops.ofInt (center - left))
    else if center ≤ (j : ℤ) ∧ (j : ℤ) < right then
      ops.div (ops.ofInt (right - (j : ℤ))) (ops.ofInt (right - center))
    else ops.zero⟩

/-- A frame multiplied elementwise by the Hann window
(`frame * np.hanning(n_fft)`). -/
def windowedFrame (ops : NumOps α) (nFft : ℕ) (frame : List α) : List α :=
  frame.mapIdx (fun i x => ops.mul x (ops.hanning nFft i))

/-- `WhisperASR._compute_mel_spectrogram`: pad/trim the waveform to 30 s
at 16 kHz, STFT with window 400 and hop 160 into a preallocated
`(n_fft // 2 + 1, n_frames)` complex array (a frame shorter than the
window keeps its all-zero column), power spectrum, mel projection,
`log10` with floor `1e-10`, dynamic-range clamp at `max - 8`, and the
affine normalization `(x + 4) / 4`. The final `astype(np.float32)` cast
is not modelled (entries stay in `α`). -/
def computeMelSpectrogram (ops : NumOps α) (audio : List α) : Mat α :=
  let nFft := 400
  let hopLength := 160
  let nMels := 80
  let targetLength := 30 * 16000
  let audio2 := padToTarget ops.zero targetLength audio
  let nFrames := 1 + (audio2.length - nFft) / hopLength
  let stft : Mat (α × α) := ⟨nFft / 2 + 1, nFrames, fun j i =>
    let frame := (audio2.drop (i * hopLength)).take nFft
    if frame.length = nFft then
      (ops.rfftRe (windowedFrame ops nFft frame) j,
       ops.rfftIm (windowedFrame ops nFft frame) j)
    else (ops.zero, ops.zero)⟩
  let power : Mat α := ⟨stft.rows, stft.cols, fun i j =>
    let z := stft.entry i j
    ops.add (ops.mul z.1 z.1) (ops.mul z.2 z.2)⟩
  let melBasis := createMelFilterbank ops nFft nMels
  let melSpec := Mat.mul ops melBasis power
  let logMel := melSpec.map (fun x =>
    ops.log10 (ops.maxOp x (ops.ofRat (1 / 10000000000))))
  let mx := logMel.maxEntry ops
  let logMel2 := logMel.map (fun x => ops.maxOp x (ops.sub mx (ops.ofRat 8)))
  logMel2.map (fun x => ops.div (ops.add x (ops.ofRat 4)) (ops.ofRat 4))

/-- The `expected = self._expected_frames or 3000` resolution in
`transcribe`: Python `or` replaces both `None` and `0` by 3000. -/
def resolveExpected : Option ℕ → ℕ
  | some n => if n = 0 then 3000 else n
  | none => 3000

/-- The frame-axis pad/trim of `transcribe` (lines 214-222): compute the
mel spectrogram, then zero-pad the columns up to `expected`
(`np.pad`, constant zeros) or truncate down to `expected`. -/
def prepareFeatures (ops : NumOps α) (expected : ℕ) (samples : List α) : Mat α :=
  let mel := computeMelSpectrogram ops samples
  let nFrames := mel.cols
  if nFrames < expected then
    ⟨mel.rows, expected, fun i j => if j < mel.cols then mel.entry i j else ops.zero⟩
  else if nFrames > expected then ⟨mel.rows, expected, mel.entry⟩
  else mel

/-- The audio argument of `transcribe`: either a float waveform or raw
little-endian 16-bit PCM bytes. -/
inductive AudioIn (α : Type) where
  | floats (samples : List α)
  | pcm (bytes : List ℕ)

/-- Reinterpret a little-endian byte pair as a signed 16-bit integer. -/
def toInt16 (n : ℕ) : ℤ :=
  if n % 65536 < 32768 then ((n % 65536 : ℕ) : ℤ)
  else ((n % 65536 : ℕ) : ℤ) - 65536

/-- Consecutive little-endian byte pairs as int16 values
(`np.frombuffer(audio, dtype=np.int16)`). -/
def int16Pairs : List ℕ → List ℤ
  | b0 :: b1 :: rest => toInt16 (b0 + 256 * b1) :: int16Pairs rest
  | _ => []

/-- The bytes branch of `transcribe`:
`np.frombuffer(audio, dtype=np.int16).astype(np.float32) / 32768.0`.
`np.frombuffer` raises `ValueError` when the byte count is not a
multiple of the two-byte element size, modelled as `none`. -/
def bytesToSamples (ops : NumOps α) (bytes : List ℕ) : Option (List α) :=
  if bytes.length % 2 = 0 then
    some ((int16Pairs bytes).map (fun v => ops.div (ops.ofInt v) (ops.ofRat 32768)))
  else none

/-- Resolve the `transcribe` audio argument to float samples. -/
def audioSamples (ops : NumOps α) : AudioIn α → Option (List α)
  | AudioIn.floats samples => some samples
  | AudioIn.pcm bytes => bytesToSamples ops bytes

/-- `np.argmax` over a nonempty list: index of the first maximum. -/
def argmaxAux : List ℚ → ℚ → ℕ → ℕ → ℕ
  | [], _, best, _ => best
  | x :: xs, bv, best, i =>
    if bv < x then argmaxAux xs x i (i + 1) else argmaxAux xs bv best (i + 1)

/-- `int(np.argmax(logits[0, -1, :]))` for a nonempty logits row. -/
def argmax : List ℚ → ℕ
  | [] => 0
  | x :: xs => argmaxAux xs x 0 1

/-- The `for _ in range(max_tokens)` greedy loop of
`_decode_with_decoder`. `step` is one decoder-session call returning
the last-position logits row (`self._decoder_session.run` followed by
`logits[0, -1, :]`); `none` is a raising call, caught by the
`except` and breaking the loop (an empty logits row would make
`np.argmax` raise inside the same `try`, also a break). A next token
equal to `EOT_TOKEN` breaks without appending; otherwise the token is
appended to both the working sequence and the generated accumulator.
Returns the final (working sequence, generated) pair. -/
def decodeLoopAux (step : List ℤ → Option (List ℚ)) :
    ℕ → List ℤ → List ℤ → List ℤ × List ℤ
  | 0, tokens, generated => (tokens, generated)
  | fuel + 1, tokens, generated =>
    match step tokens with
    | none => (tokens, generated)
    | some [] => (tokens, generated)
    | some (l0 :: ls) =>
      let next : ℤ := (argmax (l0 :: ls) : ℕ)
      if next = WhisperTokenizer.EOT_TOKEN then (tokens, generated)
      else decodeLoopAux step fuel (tokens ++ [next]) (generated ++ [next])

/-- `WhisperASR._decode_with_decoder`: seed from
`build_decoder_input(language, 'transcribe', True)`, run the greedy
loop with `max_tokens = 50`, then decode the generated tokens with
`skip_special_tokens=True`, or produce the
`"[Audio in <language name>]"` fallback when nothing was generated;
confidence 0.85 with generated tokens, 0.60 otherwise. -/
def decodeWithDecoder (tok : WhisperTokenizer) (step : List ℤ → Option (List ℚ))
    (languages : List (String × String)) (language : String) : String × ℚ :=
  let tokens := WhisperTokenizer.buildDecoderInput language "transcribe" true
  let r := decodeLoopAux step 50 tokens []
  let generatedTokens := r.2
  let text :=
    if generatedTokens ≠ [] then tok.decode generatedTokens true
    else "[Audio in " ++ ((languages.lookup language).getD language) ++ "]"
  let confidence : ℚ := if generatedTokens ≠ [] then 0.85 else 0.60
  (text, confidence)

/-- One entry of the `segments` list of a transcription result. -/
structure Segment where
  start : ℚ
  stop : ℚ
  text : String
  confidence : ℚ
deriving DecidableEq

/-- The dict returned by `WhisperASR.transcribe`. Wall-clock
`duration_ms` is not modelled and fixed to 0. -/
structure TranscriptionResult where
  text : String
  language : String
  confidence : ℚ
  segments : List Segment
  durationMs : ℕ
deriving DecidableEq

/-- The exceptions the embedded methods can raise. -/
inductive AsrError where
  | notFound
  | notLoaded
  | valueError
  | inferenceError
  | attributeError
deriving DecidableEq

/-- The mutable state of a `WhisperASR` instance. The two ONNX sessions
are opaque capabilities: the encoder maps the mel matrix to a hidden
state (`none` = the run raised), the decoder maps the current token
sequence and the hidden state to the last-position logits row
(`none` = the run raised). `H` is the opaque hidden-state type. -/
structure WhisperASR (α H : Type) where
  encoderSession : Option (Mat α → Option H)
  decoderSession : Option (List ℤ → H → Option (List ℚ))
  tokenizer : Option WhisperTokenizer
  expectedFrames : Option ℕ
  languages : List (String × String)

/-- The `self.languages` dict set in `WhisperASR.__init__`. -/
def initLanguages : List (String × String) :=
  [("en", "English"), ("hi", "Hindi"), ("ta", "Tamil"), ("te", "Telugu"),
   ("es", "Spanish"), ("fr", "French"), ("de", "German"), ("zh", "Chinese")]

/-- A fresh `WhisperASR` instance as left by `__init__`, before any
`load()`: no sessions, no tokenizer, no probed frame count. -/
def initASR (α H : Type) : WhisperASR α H :=
  ⟨none, none, none, none, initLanguages⟩

/-- `WhisperASR.transcribe`: raise `NotLoaded` unless both sessions are
present; convert PCM bytes if needed; compute and frame-adjust the mel
spectrogram; run the encoder (a raising run propagates); greedy-decode;
assemble the result dict with one whole-input segment
(`end = len(audio) / sample_rate`, sample rate constant 16000). -/
def transcribe (ops : NumOps α) (asr : WhisperASR α H) (audio : AudioIn α)
    (language : String) : Except AsrError TranscriptionResult :=
  match asr.encoderSession, asr.decoderSession with
  | some enc, some dec =>
    match audioSamples ops audio with
    | none => Except.error AsrError.valueError
    | some samples =>
      let mel := prepareFeatures ops (resolveExpected asr.expectedFrames) samples
      match enc mel with
      | none => Except.error AsrError.inferenceError
      | some hidden =>
        match asr.tokenizer with
        | none => Except.error AsrError.attributeError
        | some tok =>
          let tc := decodeWithDecoder tok (fun ts => dec ts hidden)
            asr.languages language
          Except.ok
            { text := tc.1
              language := language
              confidence := tc.2
              segments := [⟨0, (samples.length : ℚ) / 16000, tc.1, tc.2⟩]
              durationMs := 0 }
  | _, _ => Except.error AsrError.notLoaded

/-- The list comprehension of `transcribe_batch`: sequential, and an
exception raised by any item propagates, aborting the comprehension. -/
def transcribeBatchAux (f : AudioIn α → Except AsrError TranscriptionResult) :
    List (AudioIn α) → Except AsrError (List TranscriptionResult)
  | [] => Except.ok []
  | a :: rest =>
    match f a with
    | Except.error e => Except.error e
    | Except.ok r =>
      match transcribeBatchAux f rest with
      | Except.error e => Except.error e
      | Except.ok rs => Except.ok (r :: rs)

/-- `WhisperASR.transcribe_batch`:
`[self.transcribe(audio, language) for audio in audio_list]`. -/
def transcribeBatch (ops : NumOps α) (asr : WhisperASR α H)
    (audioList : List (AudioIn α)) (language : String) :
    Except AsrError (List TranscriptionResult) :=
  transcribeBatchAux (fun a => transcribe ops asr a language) audioList

/-- Concrete scalar operations over `ℚ` used to exercise the embedding
on explicit inputs; the transcendental kernels are irrelevant stand-ins
(no theorem below inspects matrix entries). -/
def opsQ : NumOps ℚ :=
  { zero := 0, add := (· + ·), sub := (· - ·), mul := (· * ·), div := (· / ·)
    ofRat := id, ofInt := fun z => (z : ℚ), maxOp := max
    log10 := fun _ => 0, pow10 := fun _ => 1, floorToInt := fun q => ⌊q⌋
    hanning := fun _ _ => 0, rfftRe := fun _ _ => 0, rfftIm := fun _ _ => 0 }

/-- Tokenizer whose tables are empty, the state `_load_tokenizer` leaves
behind when `vocab.json` is missing from the model directory. -/
def emptyTokenizer : WhisperTokenizer :=
  ⟨fun _ => none, fun _ => none, []⟩

/-- Tokenizer whose vocabulary contains only the end-of-text string at
its conventional id 50257. -/
def eotOnlyTokenizer : WhisperTokenizer :=
  ⟨fun s => if s = "<|endoftext|>" then some 50257 else none, fun _ => none, []⟩

/-- A loaded `WhisperASR` state whose encoder session succeeds on every
input and whose decoder session raises on every call. -/
def stubASR : WhisperASR ℚ Unit :=
  { encoderSession := some (fun _ => some ())
    decoderSession := some (fun _ _ => none)
    tokenizer := some emptyTokenizer
    expectedFrames := some 3000
    languages := initLanguages }

lemma length_padToTarget (z : α) (target : ℕ) (audio : List α) :
    (padToTarget z target audio).length = target := by
  unfold padToTarget
  split
  · simp only [List.length_append, List.length_replicate]
    omega
  · simp only [List.length_take]
    omega

lemma computeMelSpectrogram_rows (ops : NumOps α) (audio : List α) :
    (computeMelSpectrogram ops audio).rows = 80 := rfl

lemma computeMelSpectrogram_cols_eq (ops : NumOps α) (audio : List α) :
    (computeMelSpectrogram ops audio).cols =
      1 + ((padToTarget ops.zero (30 * 16000) audio).length - 400) / 160 := rfl

lemma computeMelSpectrogram_cols (ops : NumOps α) (audio : List α) :
    (computeMelSpectrogram ops audio).cols = 2998 := by
  rw [computeMelSpectrogram_cols_eq, length_padToTarget]

/-- C1. For every input waveform and every frame budget, the feature
tensor built by `transcribe` for the encoder (mel spectrogram of the
waveform padded or truncated to 30 s at 16 kHz, then padded or
truncated along the frame axis) has shape exactly
`[80, expected_frames]`. -/
theorem feature_tensor_shape (ops : NumOps α) (expected : ℕ) (samples : List α) :
    (prepareFeatures ops expected samples).rows = 80 ∧
      (prepareFeatures ops expected samples).cols = expected := by
  have hc := computeMelSpectrogram_cols ops samples
  simp only [prepareFeatures]
  split_ifs
  · exact ⟨computeMelSpectrogram_rows ops samples, rfl⟩
  · exact ⟨computeMelSpectrogram_rows ops samples, rfl⟩
  · refine ⟨computeMelSpectrogram_rows ops samples, ?_⟩
    omega

/-- C10. For every input waveform the internal mel-spectrogram
computation yields exactly `1 + (480000 - 400) / 160 = 2998` frame
columns, strictly fewer than the default `expected_frames` of 3000
(`resolveExpected none`); hence with the default budget the frame-axis
adjustment in `transcribe` always zero-pads and never truncates. -/
theorem mel_frames_always_2998 (ops : NumOps α) (samples : List α) :
    (computeMelSpectrogram ops samples).cols = 1 + (480000 - 400) / 160 ∧
      (computeMelSpectrogram ops samples).cols = 2998 ∧
      resolveExpected none = 3000 ∧
      (computeMelSpectrogram ops samples).cols < resolveExpected none := by
  have hc := computeMelSpectrogram_cols ops samples
  refine ⟨?_, hc, rfl, ?_⟩
  · rw [hc]
  · rw [hc]
    norm_num [resolveExpected]

lemma decodeLoopAux_length_le (step : List ℤ → Option (List ℚ)) :
    ∀ (fuel : ℕ) (tokens generated : List ℤ),
      ((decodeLoopAux step fuel tokens generated).2).length ≤
        generated.length + fuel := by
  intro fuel
  induction fuel with
  | zero => intro tokens generated; simp [decodeLoopAux]
  | succ n ih =>
    intro tokens generated
    simp only [decodeLoopAux]
    cases h : step tokens with
    | none => simp
    | some l =>
      cases l with
      | nil => simp
      | cons l0 ls =>
        simp only []
        split
        · simp
        · have := ih (tokens ++ [((argmax (l0 :: ls) : ℕ) : ℤ)])
            (generated ++ [((argmax (l0 :: ls) : ℕ) : ℤ)])
          simp only [List.length_append, List.length_cons, List.length_nil] at this
          omega

/-- C2. The greedy decoding loop of `_decode_with_decoder` terminates
(it is a bounded `for _ in range(50)`), and for every behaviour of the
external decoder call (any logits, or an exception at any step,
including a decoder that never produces end-of-text) the generated
token sequence never exceeds `max_tokens = 50` tokens. -/
theorem decode_loop_budget (step : List ℤ → Option (List ℚ)) (language : String) :
    ((decodeLoopAux step 50
        (WhisperTokenizer.buildDecoderInput language "transcribe" true) []).2).length
      ≤ 50 := by
  have h := decodeLoopAux_length_le step 50
    (WhisperTokenizer.buildDecoderInput language "transcribe" true) []
  simpa using h

/-- C9. Loop invariant of `_decode_with_decoder`: whenever the working
sequence equals the seed followed by the generated accumulator, it
still does after any number of further steps — both lists grow only by
appending the same chosen token in lockstep, so the sequence fed to the
decoder at every step is exactly the seed followed by the tokens
generated so far, and the seed prefix is never modified. -/
theorem decode_loop_seed_invariant (step : List ℤ → Option (List ℚ)) :
    ∀ (fuel : ℕ) (seed generated : List ℤ),
      (decodeLoopAux step fuel (seed ++ generated) generated).1 =
        seed ++ (decodeLoopAux step fuel (seed ++ generated) generated).2 := by
  intro fuel
  induction fuel with
  | zero => intro seed generated; simp [decodeLoopAux]
  | succ n ih =>
    intro seed generated
    simp only [decodeLoopAux]
    cases h : step (seed ++ generated) with
    | none => simp
    | some l =>
      cases l with
      | nil => simp
      | cons l0 ls =>
        simp only []
        split
        · simp
        · rw [List.append_assoc]
          exact ih seed (generated ++ [((argmax (l0 :: ls) : ℕ) : ℤ)])

lemma decodeCollect_cons_skip (inv : ℤ → Option String) (a : ℤ) (ids : List ℤ)
    (h : WhisperTokenizer.SOT_TOKEN ≤ a) :
    WhisperTokenizer.decodeCollect inv true (a :: ids) =
      WhisperTokenizer.decodeCollect inv true ids := by
  simp only [WhisperTokenizer.decodeCollect]
  rw [if_pos ⟨trivial, h⟩]

lemma decodeCollect_cons_eot (inv : ℤ → Option String) (a : ℤ) (ids : List ℤ)
    (hlt : a < WhisperTokenizer.SOT_TOKEN) (heq : a = WhisperTokenizer.EOT_TOKEN) :
    WhisperTokenizer.decodeCollect inv true (a :: ids) = [] := by
  simp only [WhisperTokenizer.decodeCollect]
  rw [if_neg (fun hc => absurd hc.2 (not_le.mpr hlt)), if_pos ⟨trivial, heq⟩]

lemma decodeCollect_cons_reg (inv : ℤ → Option String) (a : ℤ) (ids : List ℤ)
    (hlt : a < WhisperTokenizer.SOT_TOKEN) (hne : a ≠ WhisperTokenizer.EOT_TOKEN) :
    WhisperTokenizer.decodeCollect inv true (a :: ids) =
      if (inv a).getD "" ≠ "" then
        (inv a).getD "" :: WhisperTokenizer.decodeCollect inv true ids
      else WhisperTokenizer.decodeCollect inv true ids := by
  simp only [WhisperTokenizer.decodeCollect]
  rw [if_neg (fun hc => absurd hc.2 (not_le.mpr hlt)),
    if_neg (fun hc => hne hc.2)]

lemma decodeCollect_append_eot (inv : ℤ → Option String) :
    ∀ pre post : List ℤ,
      WhisperTokenizer.decodeCollect inv true
          (pre ++ WhisperTokenizer.EOT_TOKEN :: post) =
        WhisperTokenizer.decodeCollect inv true
          (pre ++ [WhisperTokenizer.EOT_TOKEN]) := by
  intro pre
  induction pre with
  | nil =>
    intro post
    rw [List.nil_append, List.nil_append,
      decodeCollect_cons_eot inv _ post (by decide) rfl,
      decodeCollect_cons_eot inv _ [] (by decide) rfl]
  | cons a pre ih =>
    intro post
    rw [List.cons_append, List.cons_append]
    by_cases hge : WhisperTokenizer.SOT_TOKEN ≤ a
    · rw [decodeCollect_cons_skip inv a _ hge, decodeCollect_cons_skip inv a _ hge]
      exact ih post
    · have hlt := lt_of_not_le hge
      by_cases heq : a = WhisperTokenizer.EOT_TOKEN
      · rw [decodeCollect_cons_eot inv a _ hlt heq,
          decodeCollect_cons_eot inv a _ hlt heq]
      · rw [decodeCollect_cons_reg inv a _ hlt heq,
          decodeCollect_cons_reg inv a _ hlt heq, ih post]

lemma decodeCollect_filter (inv : ℤ → Option String) :
    ∀ ids : List ℤ,
      WhisperTokenizer.decodeCollect inv true ids =
        WhisperTokenizer.decodeCollect inv true
          (ids.filter (fun i => decide (i < WhisperTokenizer.SOT_TOKEN))) := by
  intro ids
  induction ids with
  | nil => rfl
  | cons a ids ih =>
    rw [List.filter_cons]
    by_cases hge : WhisperTokenizer.SOT_TOKEN ≤ a
    · have hf : decide (a < WhisperTokenizer.SOT_TOKEN) = false := by
        simp only [decide_eq_false_iff_not, not_lt]
        exact hge
      rw [hf]
      simp only [Bool.false_eq_true, if_false]
      rw [decodeCollect_cons_skip inv a ids hge]
      exact ih
    · have hlt := lt_of_not_le hge
      have hf : decide (a < WhisperTokenizer.SOT_TOKEN) = true := decide_eq_true hlt
      rw [hf]
      simp only [if_true]
      by_cases heq : a = WhisperTokenizer.EOT_TOKEN
      · rw [decodeCollect_cons_eot inv a ids hlt heq,
          decodeCollect_cons_eot inv a _ hlt heq]
      · rw [decodeCollect_cons_reg inv a ids hlt heq,
          decodeCollect_cons_reg inv a _ hlt heq, ih]

/-- C3. `decode` with `skip_special_tokens=True`: (a) every id after a
mid-sequence end-of-text contributes nothing to the output text, and
(b) every id at least the start-of-transcript id 50258 is dropped —
decoding a list equals decoding the sublist of its ids below 50258. -/
theorem decode_skip_special (t : WhisperTokenizer) :
    (∀ pre post : List ℤ,
        t.decode (pre ++ WhisperTokenizer.EOT_TOKEN :: post) true =
          t.decode (pre ++ [WhisperTokenizer.EOT_TOKEN]) true) ∧
      ∀ ids : List ℤ,
        t.decode ids true =
          t.decode (ids.filter (fun i => decide (i < WhisperTokenizer.SOT_TOKEN)))
            true :=
  ⟨fun pre post =>
      congrArg WhisperTokenizer.postprocess (decodeCollect_append_eot t.invVocab pre post),
    fun ids =>
      congrArg WhisperTokenizer.postprocess (decodeCollect_filter t.invVocab ids)⟩

lemma decodeCollect_all_special (inv : ℤ → Option String) :
    ∀ ids : List ℤ, (∀ i ∈ ids, WhisperTokenizer.SOT_TOKEN ≤ i) →
      WhisperTokenizer.decodeCollect inv true ids = [] := by
  intro ids
  induction ids with
  | nil => intro _; rfl
  | cons a ids ih =>
    intro h
    rw [decodeCollect_cons_skip inv a ids (h a (List.mem_cons_self a ids))]
    exact ih fun i hi => h i (List.mem_cons_of_mem a hi)

lemma lookup_value_ge (b : ℤ) (l : List (String × ℤ))
    (hb : ∀ p ∈ l, b ≤ p.2) :
    ∀ (k : String) (v : ℤ), l.lookup k = some v → b ≤ v := by
  induction l with
  | nil => intro k v h; simp [List.lookup] at h
  | cons p l ih =>
    intro k v h
    obtain ⟨k1, v1⟩ := p
    simp only [List.lookup] at h
    cases hk : k == k1 with
    | true =>
      rw [hk] at h
      simp only [Option.some.injEq] at h
      subst h
      exact hb ⟨k1, v1⟩ (List.mem_cons_self _ _)
    | false =>
      rw [hk] at h
      exact ih (fun p hp => hb p (List.mem_cons_of_mem _ hp)) k v h

lemma getLanguageToken_ge_sot (language : String) :
    WhisperTokenizer.SOT_TOKEN ≤ WhisperTokenizer.getLanguageToken language := by
  unfold WhisperTokenizer.getLanguageToken
  cases hl : WhisperTokenizer.LANGUAGES.lookup language with
  | some v =>
    have hb : ∀ p ∈ WhisperTokenizer.LANGUAGES, (50258 : ℤ) ≤ p.2 := by decide
    exact lookup_value_ge 50258 WhisperTokenizer.LANGUAGES hb language v hl
  | none => decide

lemma buildDecoderInput_ge_sot (language task : String) (noTimestamps : Bool) :
    ∀ i ∈ WhisperTokenizer.buildDecoderInput language task noTimestamps,
      WhisperTokenizer.SOT_TOKEN ≤ i := by
  intro i hi
  unfold WhisperTokenizer.buildDecoderInput at hi
  by_cases hts : noTimestamps = true <;>
    simp only [hts, if_true, if_false, Bool.false_eq_true, List.cons_append,
      List.nil_append, List.mem_cons, List.mem_singleton, List.not_mem_nil,
      or_false] at hi
  · rcases hi with h | h | h | h
    · subst h; exact le_refl _
    · subst h; exact getLanguageToken_ge_sot language
    · subst h; split <;> decide
    · subst h; decide
  · rcases hi with h | h | h
    · subst h; exact le_refl _
    · subst h; exact getLanguageToken_ge_sot language
    · subst h; split <;> decide

lemma postprocess_nil : WhisperTokenizer.postprocess [] = "" := by
  unfold WhisperTokenizer.postprocess
  have h1 : String.join [] = "" := rfl
  rw [h1]
  have h2 : ("" : String).replace "Ġ" " " = "" := by
    rw [String.replace]
    simp only [String.endPos, String.utf8ByteSize]
    norm_num
    intro h
    rw [String.replace.loop]
    rw [dif_pos (by decide)]
    decide
  have h3 : ("" : String).replace "Ċ" "\n" = "" := by
    rw [String.replace]
    simp only [String.endPos, String.utf8ByteSize]
    norm_num
    intro h
    rw [String.replace.loop]
    rw [dif_pos (by decide)]
    decide
  rw [h2, h3]
  unfold String.trim Substring.trim
  simp only [String.toSubstring]
  rw [Substring.takeWhileAux]
  rw [dif_neg (by decide)]
  rw [Substring.takeRightWhileAux]
  rw [dif_neg (by decide)]
  decide

/-- C7. For every language code (and any task and timestamp flag),
decoding the decoder seed built by `build_decoder_input` with
`skip_special_tokens=True` yields the empty string: every seed token is
at least the start-of-transcript id, so all are dropped. -/
theorem decode_seed_empty (t : WhisperTokenizer) (language task : String)
    (noTimestamps : Bool) :
    t.decode (WhisperTokenizer.buildDecoderInput language task noTimestamps) true
      = "" := by
  unfold WhisperTokenizer.decode
  rw [decodeCollect_all_special t.invVocab _
    (buildDecoderInput_ge_sot language task noTimestamps)]
  exact postprocess_nil

/-- C5 counterexample. The `LANGUAGES` table has exactly 99 entries
(ids 50259-50357), not the 100 the claim states. -/
theorem languages_count_counterexample :
    WhisperTokenizer.LANGUAGES.length = 99 ∧
      WhisperTokenizer.LANGUAGES.length ≠ 100 := by
  decide

/-- C5 (amended). The fixed language table consulted by
`get_language_token` contains exactly 99 entries, and every code not in
the table falls back to English's id 50259 rather than failing. -/
theorem languages_table_fallback :
    WhisperTokenizer.LANGUAGES.length = 99 ∧
      ∀ code : String, WhisperTokenizer.LANGUAGES.lookup code = none →
        WhisperTokenizer.getLanguageToken code = 50259 := by
  refine ⟨by decide, fun code h => ?_⟩
  unfold WhisperTokenizer.getLanguageToken
  rw [h]
  decide

/-- C5 witness: the unknown code "xx" is absent from the table and maps
to English's id. -/
theorem languages_table_fallback_witness :
    WhisperTokenizer.LANGUAGES.lookup "xx" = none ∧
      WhisperTokenizer.getLanguageToken "xx" = 50259 :=
  ⟨by decide, languages_table_fallback.2 "xx" (by decide)⟩

/-- C6 counterexample. With the empty vocabulary (the state left by a
missing `vocab.json`), the unknown character 'a' encodes to 0, which is
not the end-of-text id 50257. -/
theorem encode_unknown_counterexample :
    WhisperTokenizer.encode emptyTokenizer "a" = [0] ∧
      (0 : ℤ) ≠ WhisperTokenizer.EOT_TOKEN := by
  constructor
  · rfl
  · decide

/-- C6 (amended). `encode` maps each character individually through the
vocabulary and never fails; when the vocabulary assigns id `e` to the
end-of-text string, every character absent from the vocabulary maps to
`e` (with an empty or eot-less vocabulary the fallback is 0 instead),
and the output always has one token per input character. -/
theorem encode_charwise_fallback (t : WhisperTokenizer) (e : ℤ)
    (h : t.vocab "<|endoftext|>" = some e) (text : String) :
    WhisperTokenizer.encode t text =
        text.data.map (fun ch => (t.vocab ch.toString).getD e) ∧
      (WhisperTokenizer.encode t text).length = text.length := by
  constructor
  · unfold WhisperTokenizer.encode
    have hfun : (fun ch : Char =>
        (t.vocab ch.toString).getD ((t.vocab "<|endoftext|>").getD 0)) =
        fun ch : Char => (t.vocab ch.toString).getD e := by
      funext ch
      rw [h]
      rfl
    rw [hfun]
  · unfold WhisperTokenizer.encode
    rw [List.length_map]
    rfl

/-- C6 witness: a vocabulary holding only the end-of-text string at id
50257 encodes the unknown character 'a' to 50257, one token per char. -/
theorem encode_charwise_fallback_witness :
    WhisperTokenizer.encode eotOnlyTokenizer "a" = [(50257 : ℤ)] ∧
      (WhisperTokenizer.encode eotOnlyTokenizer "a").length = 1 := by
  have h := encode_charwise_fallback eotOnlyTokenizer 50257 (by decide) "a"
  constructor
  · rw [h.1]
    decide
  · rw [h.2]
    rfl

/-- C8. For every scalar interpretation, waveform (floats or PCM bytes)
and language, calling `transcribe` on a fresh instance — before `load`
has succeeded — fails with the NotLoaded condition: no transcription is
attempted and no result is returned. -/
theorem transcribe_before_load (α H : Type) (ops : NumOps α) (audio : AudioIn α)
    (language : String) :
    transcribe ops (initASR α H) audio language =
      Except.error AsrError.notLoaded := rfl

lemma transcribeBatchAux_ok_iff (f : AudioIn α → Except AsrError TranscriptionResult) :
    ∀ (audioList : List (AudioIn α)) (results : List TranscriptionResult),
      transcribeBatchAux f audioList = Except.ok results ↔
        List.Forall₂ (fun a r => f a = Except.ok r) audioList results := by
  intro audioList
  induction audioList with
  | nil =>
    intro results
    simp only [transcribeBatchAux]
    constructor
    · intro h
      simp only [Except.ok.injEq] at h
      subst h
      exact List.Forall₂.nil
    · intro h
      cases h
      rfl
  | cons a rest ih =>
    intro results
    simp only [transcribeBatchAux]
    cases hf : f a with
    | error e =>
      simp only []
      constructor
      · intro h
        exact absurd h (by simp)
      · intro h
        rcases List.forall₂_cons_left_iff.mp h with ⟨b, l2, hab, hrest2, rfl⟩
        rw [hf] at hab
        exact absurd hab (by simp)
    | ok r =>
      cases hrest : transcribeBatchAux f rest with
      | error e2 =>
        simp only []
        constructor
        · intro h
          exact absurd h (by simp)
        · intro h
          rcases List.forall₂_cons_left_iff.mp h with ⟨b, l2, hab, hrest2, rfl⟩
          rw [(ih l2).mpr hrest2] at hrest
          exact absurd hrest (by simp)
      | ok rs2 =>
        simp only [Except.ok.injEq]
        constructor
        · intro h
          subst h
          exact List.Forall₂.cons hf ((ih rs2).mp hrest)
        · intro h
          rcases List.forall₂_cons_left_iff.mp h with ⟨b, l2, hab, hrest2, rfl⟩
          rw [hf] at hab
          simp only [Except.ok.injEq] at hab
          subst hab
          rw [(ih l2).mpr hrest2] at hrest
          simp only [Except.ok.injEq] at hrest
          subst hrest
          rfl

/-- C4 (amended). `transcribe_batch` runs `transcribe` on each waveform
sequentially and independently (no cross-item state): it returns a
result list exactly when every item's `transcribe` succeeds, pairing
inputs with their independent per-item results in order; but an item's
failure aborts the whole batch (the exception propagates), so no
results are returned for the remaining items. -/
theorem transcribeBatch_ok_iff (ops : NumOps α) (asr : WhisperASR α H)
    (audioList : List (AudioIn α)) (language : String)
    (results : List TranscriptionResult) :
    transcribeBatch ops asr audioList language = Except.ok results ↔
      List.Forall₂ (fun a r => transcribe ops asr a language = Except.ok r)
        audioList results :=
  transcribeBatchAux_ok_iff (fun a => transcribe ops asr a language)
    audioList results

/-- C4 counterexample. In a loaded state whose decoder raises (so every
successful item yields the fallback text), a two-item batch whose first
item is an odd-length PCM buffer (whose conversion raises `ValueError`)
aborts with that error and returns no results at all — although the
second item on its own transcribes successfully. -/
theorem transcribeBatch_abort_counterexample :
    transcribeBatch opsQ stubASR [AudioIn.pcm [0], AudioIn.floats []] "en" =
        Except.error AsrError.valueError ∧
      ∃ r : TranscriptionResult,
        transcribe opsQ stubASR (AudioIn.floats []) "en" = Except.ok r ∧
          r.text = "[Audio in English]" ∧ r.confidence = 0.60 := by
  refine ⟨rfl, ⟨_, rfl, ?_, rfl⟩⟩
  decide
